import Mathlib

/-!
# Verification of the proto-value-function (PVF) grid-world pipeline

Shallow embedding of `src/pvf.py` (classes `GridWorld` and `GridWorldPVF`,
function `normalized_laplacian`).  Machine floats are modelled by exact
rationals `ℚ`; numpy arrays by total functions with an explicit size;
Python exceptions (`IndexError`, `ValueError` from numpy) by
`Except String`.  `np.sqrt` is modelled by `Rat.sqrt`; every value the
pipeline ever takes a square root of is exactly `1` (proved below as
`colSum_degreeCorrect`), where `Rat.sqrt` agrees with the real square
root, so the model is faithful on all reachable inputs.
-/

namespace PVF

/-! ## Grid Graph Model (`GridWorld`) -/

/-- The in-bounds 4-adjacency test of the construction loop in
`GridWorld.__init__`: `connect(x, y, x+1, y)` and `connect(x, y, x, y+1)`
write a weight for every in-bounds pair of cells that differ by exactly
one step in exactly one axis, in both directions. -/
def adjacentB (w h x0 y0 x1 y1 : ℕ) : Bool :=
  decide (x0 < w) && decide (y0 < h) && decide (x1 < w) && decide (y1 < h) &&
    ((decide (x1 = x0 + 1) && decide (y1 = y0)) ||
     (decide (x0 = x1 + 1) && decide (y0 = y1)) ||
     (decide (x1 = x0) && decide (y1 = y0 + 1)) ||
     (decide (x0 = x1) && decide (y0 = y1 + 1)))

/-- Entry `self._graph[y0, x0, y1, x1]` after the construction loop of
`GridWorld.__init__`: weight `0.25` for each in-bounds grid-adjacent pair
(written symmetrically by `connect`), `0` everywhere else. -/
def gridEdgeWeight (w h x0 y0 x1 y1 : ℕ) : ℚ :=
  if adjacentB w h x0 y0 x1 y1 then 1/4 else 0

/-- `np.reshape(gridworld._graph, (num_cells, num_cells))`: the row-major
flattening, cell `p` having coordinates `x = p % w`, `y = p / w`. -/
def flatGraph (w h : ℕ) (p q : ℕ) : ℚ :=
  gridEdgeWeight w h (p % w) (p / w) (q % w) (q / w)

/-- The `GridWorld` state: dimensions, cell count, the `_active` array
(flattened, row-major) and the `_graph` tensor (flattened to `n × n`). -/
structure GridWorld where
  width : ℕ
  height : ℕ
  num_cells : ℕ
  activeArr : ℕ → Bool
  graphArr : ℕ → ℕ → ℚ

/-- `GridWorld.__init__(width, height)`.  The Python code performs no
dimension validation of its own: `np.ones`/`np.zeros` raise `ValueError`
("negative dimensions are not allowed") for a negative dimension, while a
zero dimension is accepted and yields zero-size arrays; all cells start
active and the edge weights are those of the construction loop. -/
def GridWorld.init (width height : ℤ) : Except String GridWorld :=
  if width < 0 ∨ height < 0 then
    .error "negative dimensions are not allowed"
  else
    .ok { width := width.toNat
          height := height.toNat
          num_cells := width.toNat * height.toNat
          activeArr := fun _ => true
          graphArr := flatGraph width.toNat height.toNat }

/-! ## Spectral pipeline (`GridWorldPVF.__init__` and `normalized_laplacian`) -/

/-- The indices of the active cells in row-major order: the flat positions
selected by the boolean mask `active = np.reshape(gridworld._active, (num_cells,))`. -/
def activeIndices (n : ℕ) (act : ℕ → Bool) : List ℕ :=
  (List.range n).filter (fun p => act p)

/-- Column sum `np.sum(A, axis=0)` of an `m × m` matrix at column `j`. -/
def colSum (m : ℕ) (A : ℕ → ℕ → ℚ) (j : ℕ) : ℚ :=
  ∑ i in Finset.range m, A i j

/-- `subgraph = graph[active][:, active]`: the adjacency submatrix over the
active cells (boolean advanced indexing; entry `(i, j)` is the full-graph
weight between the `i`-th and `j`-th active cells). -/
def subgraphM (w h : ℕ) (act : ℕ → Bool) : ℕ → ℕ → ℚ :=
  fun i j =>
    flatGraph w h ((activeIndices (h * w) act).getD i 0)
      ((activeIndices (h * w) act).getD j 0)

/-- `subgraph.flat[::subgraph.shape[0]+1] += 1 - np.sum(subgraph, axis=0)`:
the strided flat positions `0, m+1, 2(m+1), …` are exactly the diagonal, so
`1 - colSum` (computed on the matrix before the update) is added to every
diagonal entry. -/
def degreeCorrect (m : ℕ) (A : ℕ → ℕ → ℚ) : ℕ → ℕ → ℚ :=
  fun i j => A i j + if i = j then 1 - colSum m A j else 0

/-- The subgraph matrix after the degree-correction line. -/
def correctedSubgraph (w h : ℕ) (act : ℕ → Bool) : ℕ → ℕ → ℚ :=
  degreeCorrect ((activeIndices (h * w) act).length) (subgraphM w h act)

/-- `normalized_laplacian(graph)`: with `s = np.sqrt(np.sum(graph, axis=0))`
(computed before the in-place divisions), `graph /= s` divides column `j` by
`s j`, `graph /= s.T` divides row `i` by `s i`, and the result is
`np.eye(...) - graph`. -/
def normalized_laplacian (m : ℕ) (A : ℕ → ℕ → ℚ) : ℕ → ℕ → ℚ :=
  fun i j =>
    (if i = j then (1 : ℚ) else 0) -
      A i j / Rat.sqrt (colSum m A j) / Rat.sqrt (colSum m A i)

/-- The matrix handed to `np.linalg.eigh` in `GridWorldPVF.__init__`. -/
def pvfLaplacian (w h : ℕ) (act : ℕ → Bool) : ℕ → ℕ → ℚ :=
  normalized_laplacian ((activeIndices (h * w) act).length)
    (correctedSubgraph w h act)

/-- `self._eigvals[self._eigvals < 0] = 0`: floor negative entries to `0`. -/
def floorNeg (xs : List ℚ) : List ℚ :=
  xs.map (fun x => if x < 0 then 0 else x)

/-- `np.amax(np.absolute(eigvecs), axis=0)` at column `k`: the largest
absolute value in eigenvector `k` (all summands are `≥ 0`, so folding
`max` from `0` agrees with numpy's `amax` for `m ≥ 1`). -/
def vecMax (m : ℕ) (V : ℕ → ℕ → ℚ) (k : ℕ) : ℚ :=
  ((List.range m).map (fun i => |V i k|)).foldr max 0

/-- `eigvec_max[eigvec_max == 0] = 1.0`: the divisor actually used. -/
def vecMaxAdj (m : ℕ) (V : ℕ → ℕ → ℚ) (k : ℕ) : ℚ :=
  if vecMax m V k = 0 then 1 else vecMax m V k

/-- `eigvecs /= eigvec_max`: each column divided by its adjusted maximum. -/
def normVecs (m : ℕ) (V : ℕ → ℕ → ℚ) : ℕ → ℕ → ℚ :=
  fun i k => V i k / vecMaxAdj m V k

/-- `np.reshape(self._eigvecs, (num_cells, len(self)))[active] = eigvecs`:
boolean-mask row assignment into the zero-initialised output.  Flat cell `p`
receives row `r` of `V` when `p` is the `r`-th active index, and stays `0`
when inactive (or out of range). -/
def reembedFlat (n : ℕ) (act : ℕ → Bool) (V : ℕ → ℕ → ℚ) (p k : ℕ) : ℚ :=
  if act p = true ∧ p < n then V ((activeIndices n act).indexOf p) k else 0

/-- The `GridWorldPVF` object: stored `self._eigvals` (after flooring) and
the re-embedded `self._eigvecs` array, indexed `(y, x, k)`. -/
structure GridWorldPVF where
  width : ℕ
  height : ℕ
  eigvals : List ℚ
  eigvecs : ℕ → ℕ → ℕ → ℚ

/-- `GridWorldPVF.__init__(gridworld)`, parametrised by the raw output
`(rawEigvals, rawEigvecs)` of the library call `np.linalg.eigh` (an `m`-list
of eigenvalues in ascending order and an `m × m` matrix whose columns are
the eigenvectors); everything after the solver call is translated from the
source: flooring, per-column max-abs normalisation, and re-embedding. -/
def buildPVF (w h : ℕ) (act : ℕ → Bool) (rawEigvals : List ℚ)
    (rawEigvecs : ℕ → ℕ → ℚ) : GridWorldPVF :=
  { width := w
    height := h
    eigvals := floorNeg rawEigvals
    eigvecs := fun y x k =>
      reembedFlat (h * w) act
        (normVecs ((activeIndices (h * w) act).length) rawEigvecs) (y * w + x) k }

/-- `len(self)` = `len(self._eigvals)`. -/
def GridWorldPVF.lenB (b : GridWorldPVF) : ℕ := b.eigvals.length

/-- `__getitem__` with an integer index: `0 <= i < len(self)` returns the
pair `(self._eigvals[i], self._eigvecs[..., i])`, anything else raises
`IndexError`. -/
def GridWorldPVF.getItem (b : GridWorldPVF) (i : ℤ) :
    Except String (ℚ × (ℕ → ℕ → ℚ)) :=
  if 0 ≤ i ∧ i < (b.eigvals.length : ℤ) then
    .ok (b.eigvals.getD i.toNat 0, fun y x => b.eigvecs y x i.toNat)
  else
    .error "Invalid index"

/-- A Python `slice` object: optional `start`, `stop`, `step`. -/
structure PySlice where
  startOpt : Option ℤ
  stopOpt : Option ℤ
  stepOpt : Option ℤ

/-- CPython's `slice.indices(n)`: clamp `start`/`stop` to the length `n`
(negative values count from the end), defaulting per the sign of `step`;
`step = 0` raises `ValueError`. -/
def PySlice.indices (s : PySlice) (n : ℕ) : Except String (ℤ × ℤ × ℤ) :=
  let step := s.stepOpt.getD 1
  if step = 0 then .error "slice step cannot be zero"
  else
    let low : ℤ := if step < 0 then -1 else 0
    let high : ℤ := if step < 0 then (n : ℤ) - 1 else (n : ℤ)
    let start := match s.startOpt with
      | none => if step < 0 then (n : ℤ) - 1 else 0
      | some v => if v < 0 then max (v + n) low else min v high
    let stop := match s.stopOpt with
      | none => if step < 0 then -1 else (n : ℤ)
      | some v => if v < 0 then max (v + n) low else min v high
    .ok (start, stop, step)

/-- `__getitem__` with a slice argument.  The source computes
`[self[j] for j in i.indices(len(self))]`: it iterates over the
`(start, stop, step)` tuple returned by `indices` itself (there is no
`range(*...)` around it), so the comprehension indexes the basis at the
three values `start`, `stop` and `step`, propagating any `IndexError`. -/
def GridWorldPVF.getSlice (b : GridWorldPVF) (s : PySlice) :
    Except String (List (ℚ × (ℕ → ℕ → ℚ))) := do
  let (a, b2, c) ← s.indices b.eigvals.length
  [a, b2, c].mapM b.getItem

/-- `min_eigval(self)` = `np.amin(self._eigvals)`; numpy raises
`ValueError` on a zero-size reduction. -/
def GridWorldPVF.min_eigval (b : GridWorldPVF) : Except String ℚ :=
  match b.eigvals with
  | [] => .error "zero-size array to reduction operation minimum"
  | x :: xs => .ok (xs.foldl min x)

/-- `max_eigval(self)` = `np.amax(self._eigvals)`; numpy raises
`ValueError` on a zero-size reduction. -/
def GridWorldPVF.max_eigval (b : GridWorldPVF) : Except String ℚ :=
  match b.eigvals with
  | [] => .error "zero-size array to reduction operation maximum"
  | x :: xs => .ok (xs.foldl max x)

/-- The binary search performed by `np.searchsorted(a, v)` with the default
`side='left'`: the classic `bisect_left` loop
(`while lo < hi: mid = (lo+hi)//2; if a[mid] < v: lo = mid+1 else hi = mid`). -/
def bisectLeftGo (xs : List ℚ) (t : ℚ) (lo hi : ℕ) : ℕ :=
  if h : lo < hi then
    if xs.getD ((lo + hi) / 2) 0 < t then bisectLeftGo xs t ((lo + hi) / 2 + 1) hi
    else bisectLeftGo xs t lo ((lo + hi) / 2)
  else lo
termination_by hi - lo
decreasing_by
  all_goals omega

/-- `eigval_index(self, eigval)` =
`np.fmin(np.searchsorted(self._eigvals, eigval), len(self))`. -/
def GridWorldPVF.eigval_index (b : GridWorldPVF) (t : ℚ) : ℕ :=
  min (bisectLeftGo b.eigvals t 0 b.eigvals.length) b.eigvals.length

/-- Did the call return normally (`.ok`) rather than raise? -/
def isOkE {ε α : Type} : Except ε α → Bool
  | .ok _ => true
  | .error _ => false

/-! ## Heap model of `GridWorldPVF.__init__`'s array mutations

`normalized_laplacian` divides its argument in place (`graph /= ...`) and
the degree-correction line updates `subgraph.flat` in place, so whether
`gridworld._graph` survives construction depends on numpy aliasing:
`np.reshape` of a contiguous array returns a *view* (same buffer), while
boolean advanced indexing (`graph[active][:, active]`) allocates a *fresh*
buffer.  We model the float arrays as a store indexed by buffer ids and
replay the mutating steps of `__init__` against it. -/

/-- Overwrite the buffer `id` of the store `H` with matrix `A`. -/
def updateQ (H : ℕ → ℕ → ℕ → ℚ) (id : ℕ) (A : ℕ → ℕ → ℚ) : ℕ → ℕ → ℕ → ℚ :=
  fun b => if b = id then A else H b

/-- The array steps of `GridWorldPVF.__init__` on the store `H`, where
`gridworld._graph` lives in buffer `graphId`:
`graph = np.reshape(gridworld._graph, ...)` is a view of `graphId`;
`subgraph = graph[active][:, active]` allocates the fresh buffer
`graphId + 1` holding the extracted submatrix;
the degree-correction `+=` and the two `/=` of `normalized_laplacian`
mutate that buffer in place; the value returned second is the Laplacian
`np.eye(...) - graph` (a fresh allocation).  `gridworld._active` is only
ever read (reshape view, mask indexing), never written. -/
def pvfInitHeap (w h : ℕ) (H : ℕ → ℕ → ℕ → ℚ) (graphId : ℕ)
    (act : ℕ → Bool) : (ℕ → ℕ → ℕ → ℚ) × (ℕ → ℕ → ℚ) :=
  let n := h * w
  let subId := graphId + 1
  let m := (activeIndices n act).length
  let extract : ℕ → ℕ → ℚ := fun i j =>
    H graphId ((activeIndices n act).getD i 0) ((activeIndices n act).getD j 0)
  let H1 := updateQ H subId extract
  let H2 := updateQ H1 subId (degreeCorrect m (H1 subId))
  let s : ℕ → ℚ := fun j => Rat.sqrt (colSum m (H2 subId) j)
  let H3 := updateQ H2 subId (fun i j => H2 subId i j / s j / s i)
  (H3, fun i j => (if i = j then (1 : ℚ) else 0) - H3 subId i j)

/-! ## Helper lemmas -/

/-- Adding `1 - colSum` to every diagonal entry makes every in-range column
sum exactly `1`: this is the only value whose square root the
normalization ever takes. -/
lemma colSum_degreeCorrect (m : ℕ) (A : ℕ → ℕ → ℚ) (j : ℕ) (hj : j < m) :
    colSum m (degreeCorrect m A) j = 1 := by
  have h1 : colSum m (degreeCorrect m A) j
      = colSum m A j + ∑ i ∈ Finset.range m, (if i = j then 1 - colSum m A j else 0) := by
    unfold colSum degreeCorrect
    rw [Finset.sum_add_distrib]
    rfl
  rw [h1, Finset.sum_ite_eq' (Finset.range m) j, if_pos (Finset.mem_range.mpr hj)]
  ring

lemma sqrtOneQ : Rat.sqrt 1 = 1 := by decide

lemma colSum_corrected (w h : ℕ) (act : ℕ → Bool) (j : ℕ)
    (hj : j < (activeIndices (h * w) act).length) :
    colSum (activeIndices (h * w) act).length (correctedSubgraph w h act) j = 1 := by
  unfold correctedSubgraph
  exact colSum_degreeCorrect _ _ _ hj

/-- On in-range entries the Laplacian divides by `sqrt 1 = 1` only. -/
lemma pvfLaplacian_eq (w h : ℕ) (act : ℕ → Bool) (i j : ℕ)
    (hi : i < (activeIndices (h * w) act).length)
    (hj : j < (activeIndices (h * w) act).length) :
    pvfLaplacian w h act i j =
      (if i = j then (1 : ℚ) else 0) - correctedSubgraph w h act i j := by
  unfold pvfLaplacian normalized_laplacian
  rw [colSum_corrected _ _ _ _ hi, colSum_corrected _ _ _ _ hj, sqrtOneQ]
  simp

lemma foldr_max_nonneg (l : List ℚ) : 0 ≤ l.foldr max 0 := by
  induction l with
  | nil => exact le_refl 0
  | cons x xs ih => exact le_trans ih (le_max_right x _)

lemma le_foldr_max {x : ℚ} {l : List ℚ} (hx : x ∈ l) : x ≤ l.foldr max 0 := by
  induction l with
  | nil => cases hx
  | cons y ys ih =>
    rcases List.mem_cons.mp hx with rfl | hmem
    · exact le_max_left _ _
    · exact le_trans (ih hmem) (le_max_right _ _)

lemma vecMax_nonneg (m : ℕ) (V : ℕ → ℕ → ℚ) (k : ℕ) : 0 ≤ vecMax m V k :=
  foldr_max_nonneg _

lemma vecMaxAdj_pos (m : ℕ) (V : ℕ → ℕ → ℚ) (k : ℕ) : 0 < vecMaxAdj m V k := by
  unfold vecMaxAdj
  split
  · exact one_pos
  · exact lt_of_le_of_ne (vecMax_nonneg m V k) (Ne.symm (by assumption))

lemma vecMax_eq_zero_entries {m : ℕ} {V : ℕ → ℕ → ℚ} {k : ℕ}
    (h0 : vecMax m V k = 0) {i : ℕ} (hi : i < m) : V i k = 0 := by
  have hmem : |V i k| ∈ (List.range m).map (fun i => |V i k|) :=
    List.mem_map.mpr ⟨i, List.mem_range.mpr hi, rfl⟩
  have hle : |V i k| ≤ vecMax m V k := le_foldr_max hmem
  rw [h0] at hle
  exact abs_eq_zero.mp (le_antisymm hle (abs_nonneg _))

lemma foldr_max_div (l : List ℚ) {c : ℚ} (hc : 0 ≤ c) :
    (l.map (· / c)).foldr max 0 = l.foldr max 0 / c := by
  induction l with
  | nil => simp
  | cons x xs ih =>
    simp only [List.map_cons, List.foldr_cons, ih]
    exact max_div_div_right hc x _

/-- Scaling a column by its positive adjusted maximum scales the maximum. -/
lemma vecMax_normVecs (m : ℕ) (V : ℕ → ℕ → ℚ) (k : ℕ) :
    vecMax m (normVecs m V) k = vecMax m V k / vecMaxAdj m V k := by
  have hc := vecMaxAdj_pos m V k
  unfold vecMax normVecs
  simp only [abs_div, abs_of_pos hc]
  have hmm : ((List.range m).map fun i => |V i k| / vecMaxAdj m V k)
      = ((List.range m).map fun i => |V i k|).map (· / vecMaxAdj m V k) := by
    rw [List.map_map]
    rfl
  rw [hmm, foldr_max_div _ (le_of_lt hc)]

lemma floorNeg_length (xs : List ℚ) : (floorNeg xs).length = xs.length :=
  List.length_map _ _

lemma floorNeg_getD {xs : List ℚ} {i : ℕ} (hi : i < xs.length) :
    (floorNeg xs).getD i 0 = if xs.getD i 0 < 0 then 0 else xs.getD i 0 := by
  unfold floorNeg
  rw [List.getD_eq_getElem _ _ (by simpa using hi), List.getD_eq_getElem _ _ hi,
    List.getElem_map]

/-- A cell with in-bounds coordinates has an in-bounds row-major index. -/
lemma cell_index_lt {w h x y : ℕ} (hx : x < w) (hy : y < h) : y * w + x < h * w := by
  calc y * w + x < y * w + w := by omega
    _ = (y + 1) * w := by ring
    _ ≤ h * w := Nat.mul_le_mul_right w (Nat.succ_le_of_lt hy)

/-- Correctness of the `bisect_left` loop on a sorted list: the result `r`
separates the entries `< t` (strictly below `r`) from those `≥ t`. -/
lemma bisectLeftGo_spec (xs : List ℚ) (t : ℚ)
    (hs : ∀ i j, i ≤ j → j < xs.length → xs.getD i 0 ≤ xs.getD j 0) :
    ∀ fuel lo hi, hi - lo ≤ fuel → hi ≤ xs.length → lo ≤ hi →
      (∀ k, k < lo → xs.getD k 0 < t) →
      (∀ k, hi ≤ k → k < xs.length → t ≤ xs.getD k 0) →
      lo ≤ bisectLeftGo xs t lo hi ∧ bisectLeftGo xs t lo hi ≤ hi ∧
        (∀ k, k < bisectLeftGo xs t lo hi → xs.getD k 0 < t) ∧
        (∀ k, bisectLeftGo xs t lo hi ≤ k → k < xs.length → t ≤ xs.getD k 0) := by
  intro fuel
  induction fuel with
  | zero =>
    intro lo hi hfuel hhi hlh hlow hhigh
    have heq : lo = hi := by omega
    rw [bisectLeftGo, dif_neg (by omega)]
    exact ⟨le_refl lo, le_of_eq heq, hlow, fun k hk1 hk2 => hhigh k (heq ▸ hk1) hk2⟩
  | succ n ih =>
    intro lo hi hfuel hhi hlh hlow hhigh
    rw [bisectLeftGo]
    by_cases hcase : lo < hi
    · rw [dif_pos hcase]
      have hmidlt : (lo + hi) / 2 < hi := by omega
      have hmidge : lo ≤ (lo + hi) / 2 := by omega
      by_cases hmidv : xs.getD ((lo + hi) / 2) 0 < t
      · rw [if_pos hmidv]
        refine (ih ((lo + hi) / 2 + 1) hi (by omega) hhi (by omega) ?_ hhigh).imp
          (fun h1 => by omega) (fun h2 => h2)
        intro k hk
        exact lt_of_le_of_lt
          (hs k ((lo + hi) / 2) (by omega) (lt_of_lt_of_le hmidlt hhi)) hmidv
      · rw [if_neg hmidv]
        refine (ih lo ((lo + hi) / 2) (by omega) (le_trans (le_of_lt hmidlt) hhi)
          hmidge hlow ?_).imp (fun h1 => h1) (fun h2 => h2.imp (by omega) (fun h3 => h3))
        intro k hk1 hk2
        exact le_trans (not_lt.mp hmidv) (hs ((lo + hi) / 2) k hk1 hk2)
    · rw [dif_neg hcase]
      have heq : lo = hi := by omega
      exact ⟨le_refl lo, le_of_eq heq, hlow, fun k hk1 hk2 => hhigh k (heq ▸ hk1) hk2⟩

lemma updateQ_at (H : ℕ → ℕ → ℕ → ℚ) (id : ℕ) (A : ℕ → ℕ → ℚ) :
    updateQ H id A id = A := if_pos rfl

lemma updateQ_away (H : ℕ → ℕ → ℕ → ℚ) (id : ℕ) (A : ℕ → ℕ → ℚ) {b : ℕ}
    (hb : b ≠ id) : updateQ H id A b = H b := if_neg hb

/-! ## Claims -/

/-- Claim C5 counterexample: `GridWorld(0, 1)` is accepted (no error is
raised) and yields a usable zero-cell grid, although the claim demands that
`width == 0` be rejected. -/
theorem C5_counterexample :
    isOkE (GridWorld.init 0 1) = true ∧
    (GridWorld.init 0 1).toOption.map GridWorld.num_cells = some 0 := by
  decide

/-- Claim C5 (amended): `GridWorld.__init__` performs no validation of its
own; construction fails exactly for a negative `width` or `height` (the
`ValueError` numpy raises when allocating the arrays), while `width == 0`
or `height == 0` is accepted and yields an empty (zero-cell) grid. -/
theorem C5_amended_construction (w h : ℤ) :
    isOkE (GridWorld.init w h) = false ↔ w < 0 ∨ h < 0 := by
  unfold GridWorld.init
  by_cases hc : w < 0 ∨ h < 0
  · rw [if_pos hc]
    simpa [isOkE] using hc
  · rw [if_neg hc]
    simpa [isOkE] using hc

/-- Witness for C5 (amended): `GridWorld(-1, 3)` fails. -/
theorem C5_amended_construction_witness :
    isOkE (GridWorld.init (-1) 3) = false :=
  (C5_amended_construction (-1) 3).mpr (Or.inl (by decide))

/-- Claim C6 (confirmed): for every grid snapshot (any active set), every
degree value computed for the symmetric normalization — the column sum of
the degree-corrected subgraph — equals exactly `1`, so its square root is
nonzero and the normalization never divides by zero; the eigenvector-scale
divisor (`eigvec_max` with zeros replaced by `1`) is likewise never zero. -/
theorem C6_no_division_by_zero (w h : ℕ) (act : ℕ → Bool) (j : ℕ)
    (hj : j < (activeIndices (h * w) act).length) (V : ℕ → ℕ → ℚ) (k : ℕ) :
    colSum (activeIndices (h * w) act).length (correctedSubgraph w h act) j = 1 ∧
    Rat.sqrt
      (colSum (activeIndices (h * w) act).length (correctedSubgraph w h act) j) ≠ 0 ∧
    vecMaxAdj (activeIndices (h * w) act).length V k ≠ 0 := by
  refine ⟨colSum_corrected w h act j hj, ?_, ne_of_gt (vecMaxAdj_pos _ _ _)⟩
  rw [colSum_corrected w h act j hj, sqrtOneQ]
  exact one_ne_zero

/-- Witness for C6 at the fully active `1×1` grid. -/
theorem C6_no_division_by_zero_witness :
    colSum (activeIndices (1 * 1) (fun _ => true)).length
      (correctedSubgraph 1 1 (fun _ => true)) 0 = 1 :=
  (C6_no_division_by_zero 1 1 (fun _ => true) 0 (by decide) (fun _ _ => 0) 0).1

/-- Claim C7 (confirmed): given the eigensolver's ascending raw eigenvalue
sequence, the stored sequence (with negative entries floored to `0`) is
non-negative and non-decreasing. -/
theorem C7_eigvals_nonneg_sorted (w h : ℕ) (act : ℕ → Bool) (raw : List ℚ)
    (rv : ℕ → ℕ → ℚ)
    (hs : ∀ i, i + 1 < raw.length → raw.getD i 0 ≤ raw.getD (i + 1) 0) :
    (∀ i, i < (buildPVF w h act raw rv).eigvals.length →
      0 ≤ (buildPVF w h act raw rv).eigvals.getD i 0) ∧
    (∀ i, i + 1 < (buildPVF w h act raw rv).eigvals.length →
      (buildPVF w h act raw rv).eigvals.getD i 0 ≤
        (buildPVF w h act raw rv).eigvals.getD (i + 1) 0) := by
  have hev : (buildPVF w h act raw rv).eigvals = floorNeg raw := rfl
  rw [hev, floorNeg_length]
  constructor
  · intro i hi
    rw [floorNeg_getD hi]
    split
    · exact le_refl 0
    · exact le_of_not_lt (by assumption)
  · intro i hi
    rw [floorNeg_getD (by omega), floorNeg_getD hi]
    have hmono := hs i hi
    split_ifs <;> linarith

/-- Witness for C7 with raw solver output `[0, 1]`. -/
theorem C7_eigvals_nonneg_sorted_witness :
    0 ≤ (buildPVF 1 1 (fun _ => true) [0, 1] (fun _ _ => 0)).eigvals.getD 0 0 :=
  (C7_eigvals_nonneg_sorted 1 1 (fun _ => true) [0, 1] (fun _ _ => 0)
    (by
      intro i hi
      simp only [List.length_cons, List.length_nil] at hi
      have h0 : i = 0 := by omega
      subst h0
      norm_num)).1 0 (by decide)

/-- Claim C8 (confirmed): in the re-embedded eigenvector grids, every
inactive cell holds exactly `0` for every basis index, and every active
cell holds the normalized eigenvector component at the cell's row-major
position among the active indices. -/
theorem C8_reembedding (w h : ℕ) (act : ℕ → Bool) (raw : List ℚ)
    (rv : ℕ → ℕ → ℚ) (x y k : ℕ) (hx : x < w) (hy : y < h) :
    (act (y * w + x) = false → (buildPVF w h act raw rv).eigvecs y x k = 0) ∧
    (act (y * w + x) = true → (buildPVF w h act raw rv).eigvecs y x k =
      normVecs (activeIndices (h * w) act).length rv
        ((activeIndices (h * w) act).indexOf (y * w + x)) k) := by
  constructor
  · intro hfalse
    show reembedFlat (h * w) act _ (y * w + x) k = 0
    unfold reembedFlat
    rw [if_neg]
    intro hcon
    rw [hfalse] at hcon
    exact Bool.false_ne_true hcon.1
  · intro htrue
    show reembedFlat (h * w) act _ (y * w + x) k = _
    unfold reembedFlat
    rw [if_pos ⟨htrue, cell_index_lt hx hy⟩]

/-- Witness for C8 at the fully active `1×1` grid. -/
theorem C8_reembedding_witness :
    (buildPVF 1 1 (fun _ => true) [0] (fun _ _ => 1)).eigvecs 0 0 0 =
      normVecs (activeIndices (1 * 1) (fun _ => true)).length (fun _ _ => 1)
        ((activeIndices (1 * 1) (fun _ => true)).indexOf (0 * 1 + 0)) 0 :=
  (C8_reembedding 1 1 (fun _ => true) [0] (fun _ _ => 1) 0 0 0
    (by decide) (by decide)).2 (by decide)

/-- Claim C9 (confirmed): with zero active cells, construction succeeds and
yields an empty basis (`len == 0`); on it, `get(0)` raises `IndexError` and
`min_eigval`/`max_eigval` raise numpy's zero-size-reduction `ValueError`
rather than returning an ordinary value. -/
theorem C9_empty_basis (w h : ℕ) (act : ℕ → Bool) (raw : List ℚ)
    (rv : ℕ → ℕ → ℚ) (hact : activeIndices (h * w) act = [])
    (hraw : raw.length = (activeIndices (h * w) act).length) :
    (buildPVF w h act raw rv).lenB = 0 ∧
    isOkE ((buildPVF w h act raw rv).getItem 0) = false ∧
    isOkE (buildPVF w h act raw rv).min_eigval = false ∧
    isOkE (buildPVF w h act raw rv).max_eigval = false := by
  rw [hact] at hraw
  simp only [List.length_nil] at hraw
  have hrawnil : raw = [] := List.length_eq_zero.mp hraw
  subst hrawnil
  refine ⟨rfl, ?_, rfl, rfl⟩
  show isOkE (if 0 ≤ (0 : ℤ) ∧ (0 : ℤ) < ((0 : ℕ) : ℤ) then _ else _) = false
  rw [if_neg]
  · rfl
  · intro hcon
    exact absurd hcon.2 (by decide)

/-- Witness for C9 at the fully deactivated `2×2` grid. -/
theorem C9_empty_basis_witness :
    (buildPVF 2 2 (fun _ => false) [] (fun _ _ => 0)).lenB = 0 :=
  (C9_empty_basis 2 2 (fun _ => false) [] (fun _ _ => 0) rfl rfl).1

/-- Claim C1 (code bug): the slice branch of `__getitem__` iterates over
the `(start, stop, step)` tuple returned by `slice.indices` instead of
`range(start, stop, step)`.  On a fully active `1×1` grid (basis of length
`1`, and the `1×1` Laplacian is `[[0]]`, so raw solver output `([0], [[1]])`
is its exact ascending eigendecomposition) the call
`get(slice(0, length()))` indexes the basis at `j = stop = 1` and raises
`IndexError` instead of returning the single pair, although `get(0)`
itself succeeds. -/
theorem C1_slice_iterates_indices_tuple :
    (buildPVF 1 1 (fun _ => true) [0] (fun _ _ => 1)).lenB = 1 ∧
    isOkE ((buildPVF 1 1 (fun _ => true) [0] (fun _ _ => 1)).getItem 0) = true ∧
    PySlice.indices ⟨some 0, some 1, none⟩ 1 = .ok (0, 1, 1) ∧
    isOkE ((buildPVF 1 1 (fun _ => true) [0] (fun _ _ => 1)).getSlice
      ⟨some 0, some 1, none⟩) = false ∧
    pvfLaplacian 1 1 (fun _ => true) 0 0 = 0 := by
  refine ⟨by decide, by decide, by rfl, by decide, ?_⟩
  rw [pvfLaplacian_eq 1 1 _ 0 0 (by decide) (by decide)]
  norm_num [correctedSubgraph, degreeCorrect, subgraphM, colSum, Finset.sum_range_succ,
    show activeIndices (1 * 1) (fun _ => true) = [0] from rfl, flatGraph,
    gridEdgeWeight, adjacentB]

/-- Claim C2 counterexample: the `3×1` grid with the middle cell inactive
has the `2×2` zero matrix as its Laplacian, so both the identity and its
negation are exact ascending orthonormal eigendecompositions — both are
possible solver outputs.  The normalization maps the first column of the
negated identity to itself: its largest-magnitude component is `-1`, not
`+1`, and the two sign-flipped solver outputs do not normalize to the
same vector. -/
theorem C2_counterexample :
    pvfLaplacian 3 1 (fun p => !(p == 1)) 0 0 = 0 ∧
    pvfLaplacian 3 1 (fun p => !(p == 1)) 0 1 = 0 ∧
    pvfLaplacian 3 1 (fun p => !(p == 1)) 1 0 = 0 ∧
    pvfLaplacian 3 1 (fun p => !(p == 1)) 1 1 = 0 ∧
    normVecs 2 (fun i k => if i = k then -1 else 0) 0 0 = -1 ∧
    normVecs 2 (fun i k => if i = k then 1 else 0) 0 0 = 1 ∧
    normVecs 2 (fun i k => if i = k then -1 else 0) 0 0 ≠
      normVecs 2 (fun i k => if i = k then 1 else 0) 0 0 := by
  have hL : ∀ i j : ℕ, i < 2 → j < 2 → pvfLaplacian 3 1 (fun p => !(p == 1)) i j = 0 := by
    intro i j hi hj
    rw [pvfLaplacian_eq 3 1 _ i j (by simpa using hi) (by simpa using hj)]
    interval_cases i <;> interval_cases j <;>
      norm_num [correctedSubgraph, degreeCorrect, subgraphM, colSum, Finset.sum_range_succ,
        show activeIndices (1 * 3) (fun p => !(p == 1)) = [0, 2] from rfl, flatGraph,
        gridEdgeWeight, adjacentB]
  have hneg : normVecs 2 (fun i k => if i = k then -1 else 0) 0 0 = -1 := by
    norm_num [normVecs, vecMaxAdj, vecMax, show List.range 2 = [0, 1] from rfl]
  have hpos : normVecs 2 (fun i k => if i = k then 1 else 0) 0 0 = 1 := by
    norm_num [normVecs, vecMaxAdj, vecMax, show List.range 2 = [0, 1] from rfl]
  refine ⟨hL 0 0 (by omega) (by omega), hL 0 1 (by omega) (by omega),
    hL 1 0 (by omega) (by omega), hL 1 1 (by omega) (by omega), hneg, hpos, ?_⟩
  rw [hneg, hpos]
  norm_num

/-- Claim C2 (amended): the normalization divides every component by the
*absolute value* of the largest-magnitude component (`1` when the column is
all-zero): an all-zero eigenvector stays all-zero, a nonzero eigenvector
afterwards has maximum absolute component exactly `1` (its
largest-magnitude component is `+1` or `-1`), and the arbitrary overall
sign chosen by the eigensolver is preserved, not canonicalized: negating
the solver output negates the normalized result. -/
theorem C2_amended_normalization (m : ℕ) (V : ℕ → ℕ → ℚ) (k : ℕ) :
    (vecMax m V k = 0 → ∀ i, i < m → normVecs m V i k = 0) ∧
    (vecMax m V k ≠ 0 → vecMax m (normVecs m V) k = 1) ∧
    (∀ i, normVecs m (fun a b => -(V a b)) i k = -(normVecs m V i k)) := by
  refine ⟨?_, ?_, ?_⟩
  · intro h0 i hi
    unfold normVecs
    rw [vecMax_eq_zero_entries h0 hi, zero_div]
  · intro hne
    rw [vecMax_normVecs]
    unfold vecMaxAdj
    rw [if_neg hne]
    exact div_self hne
  · intro i
    have hvm : vecMax m (fun a b => -(V a b)) k = vecMax m V k := by
      unfold vecMax
      simp only [abs_neg]
    unfold normVecs vecMaxAdj
    rw [hvm, neg_div]

/-- Witness for C2 (amended) on a nonzero one-entry column. -/
theorem C2_amended_normalization_witness :
    vecMax 1 (normVecs 1 (fun _ _ => (1 : ℚ))) 0 = 1 :=
  (C2_amended_normalization 1 (fun _ _ => 1) 0).2.1
    (by norm_num [vecMax, show List.range 1 = [0] from rfl])

/-- Claim C3 counterexample: in the fully active `2×1` grid no active
node's row-sum is reduced by removing inactive neighbors (there are none),
and node `0` — a grid-boundary node with a single in-bounds neighbor — has
full-adjacency row-sum `1/4` equal to its subgraph row-sum; yet the
degree-correction line adds `1 - 1/4 = 3/4` to its diagonal entry, turning
`A[0,0]` from `0` into `3/4`, while the claim says such a node receives no
diagonal addition. -/
theorem C3_counterexample :
    subgraphM 2 1 (fun _ => true) 0 0 = 0 ∧
    colSum (activeIndices (1 * 2) (fun _ => true)).length
      (subgraphM 2 1 (fun _ => true)) 0 = 1/4 ∧
    colSum 2 (flatGraph 2 1) 0 = 1/4 ∧
    correctedSubgraph 2 1 (fun _ => true) 0 0 = 3/4 := by
  refine ⟨?_, ?_, ?_, ?_⟩ <;>
    norm_num [correctedSubgraph, degreeCorrect, subgraphM, colSum, Finset.sum_range_succ,
      show activeIndices (1 * 2) (fun _ => true) = [0, 1] from rfl, flatGraph,
      gridEdgeWeight, adjacentB]

/-- Claim C3 (amended): the degree-correction line adds
`1 - rowSum(A, i)` to the diagonal entry `A[i,i]` of *every* active node
unconditionally (leaving off-diagonal entries unchanged); the addition is
a genuine modification exactly for the nodes whose subgraph row-sum
differs from `1` — including grid-boundary nodes of a fully active grid —
and a no-op exactly for nodes whose row-sum is already `1`. -/
theorem C3_amended_degree_correction (w h : ℕ) (act : ℕ → Bool) (i j : ℕ)
    (hi : i < (activeIndices (h * w) act).length) :
    correctedSubgraph w h act i i
        = subgraphM w h act i i +
          (1 - colSum (activeIndices (h * w) act).length (subgraphM w h act) i) ∧
    (i ≠ j → correctedSubgraph w h act i j = subgraphM w h act i j) ∧
    (correctedSubgraph w h act i i ≠ subgraphM w h act i i ↔
      colSum (activeIndices (h * w) act).length (subgraphM w h act) i ≠ 1) := by
  have hdiag : correctedSubgraph w h act i i
      = subgraphM w h act i i +
        (1 - colSum (activeIndices (h * w) act).length (subgraphM w h act) i) := by
    unfold correctedSubgraph degreeCorrect
    rw [if_pos rfl]
  refine ⟨hdiag, ?_, ?_⟩
  · intro hne
    unfold correctedSubgraph degreeCorrect
    rw [if_neg hne, add_zero]
  · rw [hdiag]
    constructor
    · intro hne hs1
      exact hne (by rw [hs1]; ring)
    · intro hs1 heq
      have h0 := add_right_eq_self.mp heq
      exact hs1 (by linarith)

/-- Witness for C3 (amended) at node `0` of the fully active `2×1` grid. -/
theorem C3_amended_degree_correction_witness :
    correctedSubgraph 2 1 (fun _ => true) 0 0
      = subgraphM 2 1 (fun _ => true) 0 0 +
        (1 - colSum (activeIndices (1 * 2) (fun _ => true)).length
          (subgraphM 2 1 (fun _ => true)) 0) :=
  (C3_amended_degree_correction 2 1 (fun _ => true) 0 1 (by decide)).1

/-- Claim C4 counterexample: the `3×1` grid with the middle cell inactive
yields the `2×2` zero Laplacian, whose exact ascending eigendecomposition
is `([0, 0], I)` — a repeated eigenvalue.  The stored eigenvalues are
`[0, 0]`, and `eigval_index(eigvals[1])` returns `0`, not `1`: the
round-trip fails on repeated values. -/
theorem C4_counterexample :
    pvfLaplacian 3 1 (fun p => !(p == 1)) 0 0 = 0 ∧
    pvfLaplacian 3 1 (fun p => !(p == 1)) 0 1 = 0 ∧
    pvfLaplacian 3 1 (fun p => !(p == 1)) 1 0 = 0 ∧
    pvfLaplacian 3 1 (fun p => !(p == 1)) 1 1 = 0 ∧
    (buildPVF 3 1 (fun p => !(p == 1)) [0, 0]
      (fun i k => if i = k then 1 else 0)).lenB = 2 ∧
    (buildPVF 3 1 (fun p => !(p == 1)) [0, 0]
      (fun i k => if i = k then 1 else 0)).eigvals.getD 1 0 = 0 ∧
    (buildPVF 3 1 (fun p => !(p == 1)) [0, 0]
      (fun i k => if i = k then 1 else 0)).eigval_index
      ((buildPVF 3 1 (fun p => !(p == 1)) [0, 0]
        (fun i k => if i = k then 1 else 0)).eigvals.getD 1 0) = 0 := by
  have hL : ∀ i j : ℕ, i < 2 → j < 2 → pvfLaplacian 3 1 (fun p => !(p == 1)) i j = 0 := by
    intro i j hi hj
    rw [pvfLaplacian_eq 3 1 _ i j (by simpa using hi) (by simpa using hj)]
    interval_cases i <;> interval_cases j <;>
      norm_num [correctedSubgraph, degreeCorrect, subgraphM, colSum, Finset.sum_range_succ,
        show activeIndices (1 * 3) (fun p => !(p == 1)) = [0, 2] from rfl, flatGraph,
        gridEdgeWeight, adjacentB]
  refine ⟨hL 0 0 (by omega) (by omega), hL 0 1 (by omega) (by omega),
    hL 1 0 (by omega) (by omega), hL 1 1 (by omega) (by omega), by decide, ?_, ?_⟩
  · norm_num [buildPVF, floorNeg]
  · norm_num [buildPVF, floorNeg, GridWorldPVF.eigval_index]
    simp [bisectLeftGo]

/-- Claim C4 (amended): `eigval_index` is a lower-bound search — on a
sorted eigenvalue sequence it returns the *smallest* index holding a value
`≥` the target — so `eigval_index(eigvals[i])` returns `i` exactly when no
earlier index holds the same value (always, when the eigenvalues are
pairwise distinct); with repeated values it returns the first index of the
run. -/
theorem C4_amended_eigval_index (b : GridWorldPVF)
    (hs : ∀ i j, i ≤ j → j < b.eigvals.length →
      b.eigvals.getD i 0 ≤ b.eigvals.getD j 0)
    (i : ℕ) (hi : i < b.eigvals.length)
    (hfirst : ∀ j, j < i → b.eigvals.getD j 0 < b.eigvals.getD i 0) :
    b.eigval_index (b.eigvals.getD i 0) = i := by
  obtain ⟨h1, h2, hlow, hhigh⟩ := bisectLeftGo_spec b.eigvals (b.eigvals.getD i 0) hs
    b.eigvals.length 0 b.eigvals.length (by omega) (le_refl _) (Nat.zero_le _)
    (fun k hk => absurd hk (Nat.not_lt_zero k))
    (fun k hk1 hk2 => absurd (lt_of_le_of_lt hk1 hk2) (lt_irrefl _))
  unfold GridWorldPVF.eigval_index
  have hri : bisectLeftGo b.eigvals (b.eigvals.getD i 0) 0 b.eigvals.length = i := by
    rcases lt_trichotomy
      (bisectLeftGo b.eigvals (b.eigvals.getD i 0) 0 b.eigvals.length) i with hlt | heq | hgt
    · exact absurd (hhigh _ (le_refl _) (lt_trans hlt hi)) (not_le.mpr (hfirst _ hlt))
    · exact heq
    · exact absurd (hlow i hgt) (lt_irrefl _)
  rw [hri]
  exact min_eq_left (le_of_lt hi)

/-- Witness for C4 (amended) on the strictly increasing eigenvalues `[0, 1]`. -/
theorem C4_amended_eigval_index_witness :
    (GridWorldPVF.mk 2 1 [0, 1] (fun _ _ _ => 0)).eigval_index
      ((GridWorldPVF.mk 2 1 [0, 1] (fun _ _ _ => 0)).eigvals.getD 1 0) = 1 :=
  C4_amended_eigval_index (GridWorldPVF.mk 2 1 [0, 1] (fun _ _ _ => 0))
    (by
      intro i j hij hj
      simp only [List.length_cons, List.length_nil] at hj
      interval_cases j <;> interval_cases i <;> norm_num)
    1 (by decide)
    (by
      intro j hj
      interval_cases j
      norm_num)

/-- Claim C10 (confirmed): replaying `GridWorldPVF.__init__` against a
store of float-array buffers, with `gridworld._graph` in buffer `graphId`
(read through a reshape view) and `graph[active][:, active]` allocating a
fresh buffer, every in-place mutation (the `+=` of the degree correction
and the two `/=` inside `normalized_laplacian`) lands on the fresh buffer:
the grid's adjacency buffer is unchanged after construction (the `_active`
array is only ever read), and the Laplacian produced equals the pure
pipeline's. -/
theorem C10_grid_not_mutated (w h : ℕ) (H : ℕ → ℕ → ℕ → ℚ) (graphId : ℕ)
    (act : ℕ → Bool) (hH : H graphId = flatGraph w h) (i j : ℕ) :
    (pvfInitHeap w h H graphId act).1 graphId = H graphId ∧
    (pvfInitHeap w h H graphId act).2 i j = pvfLaplacian w h act i j := by
  have hne : graphId ≠ graphId + 1 := by omega
  constructor
  · show updateQ _ (graphId + 1) _ graphId = H graphId
    rw [updateQ_away _ _ _ hne, updateQ_away _ _ _ hne, updateQ_away _ _ _ hne]
  · show (if i = j then (1 : ℚ) else 0) - updateQ _ (graphId + 1) _ (graphId + 1) i j = _
    rw [updateQ_at]
    simp only [updateQ_at, hH]
    rfl

/-- Witness for C10 at the fully active `1×1` grid. -/
theorem C10_grid_not_mutated_witness :
    (pvfInitHeap 1 1 (fun _ => flatGraph 1 1) 0 (fun _ => true)).1 0 = flatGraph 1 1 :=
  (C10_grid_not_mutated 1 1 (fun _ => flatGraph 1 1) 0 (fun _ => true) rfl 0 0).1

end PVF
